import Mathlib

/-!
Verification development for the boltdye two-stage agent pipeline.

This file shallowly embeds the agent orchestration core of the repository:
the message data model, the model/provider tag extraction, the progress
annotation helper, the API key resolver, the LangChain model construction,
the two agent implementations in each of the two variants (the "standard"
agents under `agents/` and the "LangChain" agents under `langchain-agents/`),
and the LangChain orchestrator.

External collaborators (the LLM invocation, the file-context serialization
and context-importance selection) are modelled as oracle parameters, matching
the specification which treats them as opaque collaborators.  Token counts
are natural numbers; JavaScript `x || y` on strings is modelled by `jsOr`
(empty string and absence are both falsy).
-/

set_option maxRecDepth 10000

/-- Message roles (`system | user | assistant`). -/
inductive Role where
  | system
  | user
  | assistant
deriving DecidableEq, Repr

/-- One entry of a structured (array-shaped) message content:
`{ type: string; text?: string }`. -/
structure ContentPart where
  type : String
  text : Option String
deriving DecidableEq, Repr

/-- Message content: either a plain string or an array of parts. -/
inductive Content where
  | str (s : String)
  | parts (l : List ContentPart)
deriving DecidableEq, Repr

/-- A chat message `{role, content, id}`. -/
structure Message where
  role : Role
  content : Content
  id : String
deriving DecidableEq, Repr

/-- `{model, providerName}` extracted from tagged message text. -/
structure ModelInfo where
  model : String
  providerName : String
deriving DecidableEq, Repr

/-- Token usage counters of one model invocation. -/
structure Usage where
  completionTokens : Nat
  promptTokens : Nat
  totalTokens : Nat
deriving DecidableEq, Repr

/-- Progress annotation status.  The output schema only allows
`in-progress` and `complete`; `error` is the third value accepted (and
coerced away) by createProgressAnnotation. -/
inductive ProgressStatus where
  | inProgress
  | complete
  | error
deriving DecidableEq, Repr

/-- `ProgressAnnotation` as written to the data stream
(`{type: "progress", label, status, order, message}`; the constant `type`
field is omitted). -/
structure ProgressAnnotation where
  label : String
  status : ProgressStatus
  order : Nat
  message : String
deriving DecidableEq, Repr

/-- Events written to the `dataStream` output sink by the orchestration
core: progress annotations and the side-channel prompt-comparison event. -/
inductive StreamEvent where
  | progress (p : ProgressAnnotation)
  | promptComparison (original enhanced : String)
deriving DecidableEq, Repr

/-- Errors raised by an agent `execute`:
`thrown` sites in agent code itself (`noUserMessage`, `noApiKey` with their
message payloads) and errors propagated from an external call. -/
inductive AgentError where
  | noUserMessage (msg : String)
  | noApiKey (provider : String)
  | external (msg : String)
deriving DecidableEq, Repr

/-- `AgentResult`: `{output, usage?, progressCounter}`. -/
structure AgentResult where
  output : String
  usage : Option Usage
  progressCounter : Nat
deriving DecidableEq, Repr

/-- A file map, path to file content (abstraction of `FileMap`). -/
def FileMap := List (String × String)

/-- `AgentContext` threaded through the stages.  `env` is the
request-scoped environment, `procEnv` models the ambient `process.env`,
`apiKeys` is the per-request key map.  The output sink is not a field:
written events are returned by each operation instead. -/
structure AgentContext where
  env : String → Option String
  procEnv : String → Option String
  apiKeys : String → Option String
  files : Option FileMap
  promptId : Option String
  contextOptimization : Bool
  progressCounter : Nat

/-- Final orchestrator result `{text, usage}`. -/
structure OrchestratorResult where
  text : String
  usage : Usage
deriving DecidableEq, Repr

/-- JavaScript `a || b` on strings: the empty string is falsy. -/
def jsOr (a b : String) : String := if a = "" then b else a

/-- JavaScript `s.toLowerCase()` (ASCII, character-wise). -/
def lowerStr (s : String) : String := ⟨s.data.map Char.toLower⟩

/-- JavaScript `s.toUpperCase()` (ASCII, character-wise). -/
def upperStr (s : String) : String := ⟨s.data.map Char.toUpper⟩

/-- JavaScript `s.trim()`: strip whitespace from both ends. -/
def jsTrim (s : String) : String :=
  ⟨((s.data.dropWhile Char.isWhitespace).reverse.dropWhile Char.isWhitespace).reverse⟩

instance {α β : Type} [DecidableEq α] [DecidableEq β] : DecidableEq (Except α β) :=
  fun a b =>
  match a, b with
  | .ok x, .ok y =>
    if h : x = y then isTrue (by rw [h]) else isFalse (by intro hc; cases hc; exact h rfl)
  | .error x, .error y =>
    if h : x = y then isTrue (by rw [h]) else isFalse (by intro hc; cases hc; exact h rfl)
  | .ok _, .error _ => isFalse (by intro hc; cases hc)
  | .error _, .ok _ => isFalse (by intro hc; cases hc)

/-- `Math.ceil(n / 4)` on a natural number. -/
def ceilDiv4 (n : Nat) : Nat := (n + 3) / 4

/-- Plain text of a message content: a string content is used as is, an
array content yields the `text` of its first `type == "text"` part (or
the empty string), matching every content-extraction site in the source. -/
def contentText : Content → String
  | .str s => s
  | .parts l => (((l.find? (fun c => c.type == "text")).bind (fun c => c.text)).getD "")

/-- The lazy capture of `(.*?)\]` at a fixed position: collect characters
up to the first `]`; fail at a newline (JS `.` does not match line
terminators) or at the end of input. -/
def captureUpto : List Char → Option (List Char)
  | [] => none
  | c :: cs =>
    if c = ']' then some []
    else if c = '\n' then none
    else (captureUpto cs).map (fun l => c :: l)

/-- Try to match literal `tag` at the head of the input and then capture
lazily up to the first `]`. -/
def tryMatch : List Char → List Char → Option (List Char)
  | [], l => captureUpto l
  | _ :: _, [] => none
  | t :: ts, c :: cs => if c = t then tryMatch ts cs else none

/-- Scan for the leftmost position where `tag` matches followed by a
successful lazy capture, as a JS regex `/tag(.*?)\]/` would. -/
def tagCaptureAux (tag : List Char) : List Char → Option (List Char)
  | [] => tryMatch tag []
  | c :: cs =>
    match tryMatch tag (c :: cs) with
    | some cap => some cap
    | none => tagCaptureAux tag cs

/-- First capture group of `content.match(/tag(.*?)\]/)`. -/
def tagCapture (tag content : String) : Option String :=
  (tagCaptureAux tag.data content.data).map (fun l => ⟨l⟩)

/-- `extractModelInfo` of `langchain-agents/types.ts`: match
`/\[Model: (.*?)\]/` and `/\[Provider: (.*?)\]/` against the message text,
defaulting to `gpt-4o` / `OpenAI`. -/
def extractModelInfo (message : Message) : ModelInfo :=
  let content := contentText message.content
  { model := (tagCapture "[Model: " content).getD "gpt-4o"
    providerName := (tagCapture "[Provider: " content).getD "OpenAI" }

/-- `extractModelInfo` of `agents/prompt-enhancer.ts` (standard variant):
same matching, defaults `gpt-4` / `openai`. -/
def extractModelInfoStd (message : Message) : ModelInfo :=
  let content := contentText message.content
  { model := (tagCapture "[Model: " content).getD "gpt-4"
    providerName := (tagCapture "[Provider: " content).getD "openai" }

/-- The `[Model: ...]\n\n[Provider: ...]\n\n` message text convention used
when a message is (re)constructed carrying the model selection forward. -/
def embedTags (model providerName text : String) : String :=
  "[Model: " ++ model ++ "]\n\n[Provider: " ++ providerName ++ "]\n\n" ++ text

/-- createProgressAnnotation (identical in `agents/types.ts` and
`langchain-agents/utils.ts`): builds a progress annotation, converting an
`error` status to `complete` for output-schema compatibility. -/
def createProgressAnnotation (label message : String) (status : ProgressStatus)
    (order : Nat) : ProgressAnnotation :=
  let safeStatus := if status = ProgressStatus.error then ProgressStatus.complete else status
  { label := label, status := safeStatus, order := order, message := message }

/-- `getApiKey` of `langchain-agents/utils.ts`: resolve an API key for a
provider from the per-request key map, the request environment, then
`process.env`, with `||` chaining (empty values are skipped). -/
def getApiKey (context : AgentContext) (provider : String) : String :=
  let lp := lowerStr provider
  if lp = "anthropic" then
    jsOr ((context.apiKeys "Anthropic").getD "")
      (jsOr ((context.env "ANTHROPIC_API_KEY").getD "")
        ((context.procEnv "ANTHROPIC_API_KEY").getD ""))
  else if lp = "openai" then
    jsOr ((context.apiKeys "OpenAI").getD "")
      (jsOr ((context.env "OPENAI_API_KEY").getD "")
        ((context.procEnv "OPENAI_API_KEY").getD ""))
  else if lp = "groq" then
    jsOr ((context.apiKeys "Groq").getD "")
      (jsOr ((context.env "GROQ_API_KEY").getD "")
        ((context.procEnv "GROQ_API_KEY").getD ""))
  else
    let envKeyName := upperStr provider ++ "_API_KEY"
    jsOr ((context.apiKeys provider).getD "")
      (jsOr ((context.env envKeyName).getD "")
        ((context.procEnv envKeyName).getD ""))

/-- A constructed LangChain chat model client (descriptor of which SDK
client `createLangChainModel` returns, with its configuration). -/
structure ModelClient where
  clientProvider : String
  apiKey : String
  modelName : String
  temperature : ℚ
  baseURL : Option String
deriving DecidableEq, Repr

/-- `createLangChainModel` of `langchain-agents/utils.ts`.  `procEnv`
models the ambient `process.env`.  Unknown providers fall back to
Anthropic (fixed default model) when `process.env.ANTHROPIC_API_KEY` is
truthy, otherwise to OpenAI with the given key unchecked. -/
def createLangChainModel (procEnv : String → Option String)
    (provider model apiKey : String) (temperature : ℚ) : ModelClient :=
  let lp := lowerStr provider
  if lp = "anthropic" then
    { clientProvider := "anthropic", apiKey := apiKey, modelName := model
      temperature := temperature, baseURL := none }
  else if lp = "openai" then
    { clientProvider := "openai", apiKey := apiKey, modelName := model
      temperature := temperature, baseURL := none }
  else if lp = "groq" then
    { clientProvider := "openai", apiKey := apiKey, modelName := model
      temperature := temperature, baseURL := some "https://api.groq.com/openai/v1" }
  else
    if (procEnv "ANTHROPIC_API_KEY").getD "" ≠ "" then
      { clientProvider := "anthropic", apiKey := (procEnv "ANTHROPIC_API_KEY").getD ""
        modelName := "claude-3-sonnet-20240229", temperature := temperature, baseURL := none }
    else
      { clientProvider := "openai", apiKey := apiKey, modelName := jsOr model "gpt-4o"
        temperature := temperature, baseURL := none }

/-- Oracle type for the standard agents' model invocation (`streamText`):
given the constructed messages and the `options.system` instruction, the
external call yields text and optional usage, or fails. -/
def LlmCall := List Message → String → Except String (String × Option Usage)

/-- Oracle type for the LangChain agents' model invocation
(`llm.invoke(messages)` on a constructed model client). -/
def LcInvoke := ModelClient → List Message → Except String String

/-- The LangChain prompt-enhancer template of
`createPromptForAgent(PROMPT_ENHANCER)`, with `{input}` substituted by
`PromptTemplate.format`. -/
def lcEnhancerPrompt (input : String) : String :=
  "\n        You are a professional prompt engineer specializing in crafting precise, effective prompts.\n        Your task is to enhance prompts by making them more specific, actionable, and effective.\n\n        I want you to improve the user prompt that is wrapped in `<original_prompt>` tags.\n\n        For valid prompts:\n        - Make instructions explicit and unambiguous\n        - Add relevant context and constraints \n        - Remove redundant information\n        - Maintain the core intent\n        - Ensure the prompt is self-contained\n        - Use professional language\n\n        For invalid or unclear prompts:\n        - Respond with clear, professional guidance\n        - Keep responses concise and actionable\n        - Maintain a helpful, constructive tone\n        - Focus on what the user should provide\n        - Use a standard template for consistency\n\n        IMPORTANT: Your response must ONLY contain the enhanced prompt text.\n        Do not include any explanations, metadata, or wrapper tags.\n\n        <original_prompt>\n          "
    ++ input ++ "\n        </original_prompt>\n      "

/-- The LangChain code-generator template of
`createPromptForAgent(CODE_GENERATOR)`, with `{input}` substituted. -/
def lcCodeGenPrompt (input : String) : String :=
  "\n        You are a senior software principal architect. Your task is to generate high-quality, clean, and efficient code based on the user's requirements.\n        \n        The user has provided the following prompt:\n\n        "
    ++ input ++ "\n\n        Please generate code that:\n        - Is well-structured and maintainable\n        - Follows best practices and coding standards\n        - Includes helpful comments where necessary\n        - Is secure and handles edge cases\n        - Matches the user's requirements exactly\n        \n        Focus solely on generating the code and any necessary explanations related to the code, without additional comments about your process.\n      "

/-- The LangChain code generator's base system message. -/
def lcCodeGenBaseSystem : String :=
  "You are a senior software principal architect. Generate high-quality code based on the user's requirements."

/-- The standard prompt enhancer's instruction template (the `stripIndents`
block wrapping the original prompt; indentation stripping applied). -/
def stdEnhanceInstruction (messageContent : String) : String :=
  "\nYou are a professional prompt engineer specializing in crafting precise, effective prompts.\nYour task is to enhance prompts by making them more specific, actionable, and effective.\n\nI want you to improve the user prompt that is wrapped in `<original_prompt>` tags.\n\nFor valid prompts:\n- Make instructions explicit and unambiguous\n- Add relevant context and constraints\n- Remove redundant information\n- Maintain the core intent\n- Ensure the prompt is self-contained\n- Use professional language\n\nFor invalid or unclear prompts:\n- Respond with clear, professional guidance\n- Keep responses concise and actionable\n- Maintain a helpful, constructive tone\n- Focus on what the user should provide\n- Use a standard template for consistency\n\nIMPORTANT: Your response must ONLY contain the enhanced prompt text.\nDo not include any explanations, metadata, or wrapper tags.\n\n<original_prompt>\n"
    ++ messageContent ++ "\n</original_prompt>\n"

/-- The standard prompt enhancer's `options.system` instruction. -/
def stdEnhancerSystem : String :=
  "You are a senior software principal architect, you should help the user analyse the user query and enrich it with the necessary context and constraints to make it more specific, actionable, and effective. You should also ensure that the prompt is self-contained and uses professional language. Your response should ONLY contain the enhanced prompt text. Do not include any explanations, metadata, or wrapper tags."

/-- The standard code generator's `options.system` instruction. -/
def stdCodeGenSystem : String :=
  "You are a senior software principal architect. Generate high-quality, accurate, and optimized code based on the user's enhanced prompt. Consider the context provided from project files when available. Your primary goal is to produce code that is functional, maintainable, and follows best practices."

/-- `messages.length > 0 ? extractModelInfo(messages[messages.length - 1])
: {model: 'gpt-4o', providerName: 'OpenAI'}` — shared by the LangChain
prompt enhancer and the LangChain orchestrator. -/
def lcLastModelInfo (messages : List Message) : ModelInfo :=
  match messages.getLast? with
  | some lastMessage => extractModelInfo lastMessage
  | none => { model := "gpt-4o", providerName := "OpenAI" }

/-- The standard prompt enhancer's variant of the same expression, with
defaults `gpt-4` / `openai`. -/
def stdLastModelInfo (messages : List Message) : ModelInfo :=
  match messages.getLast? with
  | some lastMessage => extractModelInfoStd lastMessage
  | none => { model := "gpt-4", providerName := "openai" }

/-- `PromptEnhancerAgent.execute` of `agents/prompt-enhancer.ts` (standard
variant).  The `streamText` call is the `llm` oracle; the promise/string
coercion of `result.text` is the identity here since outputs are strings.
Returns the events written to the data stream and the result. -/
def Agents.PromptEnhancerAgent.execute (llm : LlmCall) (messages : List Message)
    (context : AgentContext) : List StreamEvent × Except AgentError AgentResult :=
  match messages.reverse.find? (fun m => m.role == Role.user) with
  | none => ([], .error (.noUserMessage "No user message found to enhance"))
  | some lastUserMessage =>
    let newProgressCounter := context.progressCounter + 1
    let startEvent := StreamEvent.progress
      ( createProgressAnnotation "enhance" "Enhancing prompt..." ProgressStatus.inProgress
        newProgressCounter)
    let messageContent := contentText lastUserMessage.content
    let modelInfo := stdLastModelInfo messages
    match llm [{ role := Role.user
                 content := Content.str (embedTags modelInfo.model modelInfo.providerName
                   (stdEnhanceInstruction messageContent))
                 id := "" }] stdEnhancerSystem with
    | .ok (text, usage) =>
      ([startEvent,
        StreamEvent.progress ( createProgressAnnotation "enhance"
          "Prompt enhanced successfully" ProgressStatus.complete newProgressCounter)],
       .ok { output := text, usage := usage, progressCounter := newProgressCounter })
    | .error e =>
      ([startEvent,
        StreamEvent.progress ( createProgressAnnotation "enhance"
          "Failed to enhance prompt" ProgressStatus.error newProgressCounter)],
       .error (.external e))

/-- `CodeGeneratorAgent.execute` of `agents/code-generator.ts` (standard
variant).  `mkFilesContext` models the `createFilesContext` collaborator
and `selectCtx` the `selectContext` collaborator (consulted only when a
non-empty file map is present and context optimization is on); `llm`
models `streamText`. -/
def Agents.CodeGeneratorAgent.execute (llm : LlmCall)
    (mkFilesContext : FileMap → String) (selectCtx : Except String String)
    (messages : List Message) (context : AgentContext) :
    List StreamEvent × Except AgentError AgentResult :=
  let newProgressCounter := context.progressCounter + 1
  let startEvent := StreamEvent.progress
    ( createProgressAnnotation "code-gen" "Generating code..." ProgressStatus.inProgress
      newProgressCounter)
  let failEvents := [startEvent,
    StreamEvent.progress ( createProgressAnnotation "code-gen"
      "Failed to generate code" ProgressStatus.error newProgressCounter)]
  let prepResult : Except String String :=
    match context.files with
    | some files =>
      if 0 < files.length then
        if context.contextOptimization then selectCtx else .ok (mkFilesContext files)
      else .ok ""
    | none => .ok ""
  match prepResult with
  | .error e => (failEvents, .error (.external e))
  | .ok selectedContext =>
    let messagesWithContext :=
      if selectedContext = "" then messages
      else messages ++ [{ role := Role.system
                          content := Content.str
                            ("Context from the project files:\n" ++ selectedContext)
                          id := "" }]
    match llm messagesWithContext stdCodeGenSystem with
    | .ok (text, usage) =>
      ([startEvent,
        StreamEvent.progress ( createProgressAnnotation "code-gen"
          "Code generated successfully" ProgressStatus.complete newProgressCounter)],
       .ok { output := text, usage := usage, progressCounter := newProgressCounter })
    | .error e => (failEvents, .error (.external e))

/-- `PromptEnhancerAgent.execute` of `langchain-agents/prompt-enhancer.ts`.
`invoke` models `llm.invoke` on the constructed LangChain model. -/
def LangChainAgents.PromptEnhancerAgent.execute (invoke : LcInvoke)
    (messages : List Message) (context : AgentContext) :
    List StreamEvent × Except AgentError AgentResult :=
  match messages.reverse.find? (fun m => m.role == Role.user) with
  | none => ([], .error (.noUserMessage "No user message found to enhance"))
  | some lastUserMessage =>
    let newProgressCounter := context.progressCounter + 1
    let startEvent := StreamEvent.progress
      ( createProgressAnnotation "enhance" "Enhancing prompt..." ProgressStatus.inProgress
        newProgressCounter)
    let failEvents := [startEvent,
      StreamEvent.progress ( createProgressAnnotation "enhance"
        "Failed to enhance prompt" ProgressStatus.error newProgressCounter)]
    let messageContent := contentText lastUserMessage.content
    let modelInfo := lcLastModelInfo messages
    let apiKey := getApiKey context modelInfo.providerName
    if apiKey = "" then
      (failEvents, .error (.noApiKey modelInfo.providerName))
    else
      let llm := createLangChainModel context.procEnv modelInfo.providerName
        modelInfo.model apiKey ((2 : ℚ) / 10)
      let prompt := lcEnhancerPrompt messageContent
      match invoke llm [{ role := Role.user, content := Content.str prompt, id := "" }] with
      | .ok responseContent =>
        let enhancedText := jsTrim responseContent
        let estimatedUsage : Usage :=
          { promptTokens := ceilDiv4 prompt.length
            completionTokens := ceilDiv4 enhancedText.length
            totalTokens := ceilDiv4 (prompt.length + enhancedText.length) }
        ([startEvent,
          StreamEvent.progress ( createProgressAnnotation "enhance"
            "Prompt enhanced successfully" ProgressStatus.complete newProgressCounter)],
         .ok { output := enhancedText, usage := some estimatedUsage
               progressCounter := newProgressCounter })
      | .error e => (failEvents, .error (.external e))

/-- `CodeGeneratorAgent.execute` of `langchain-agents/code-generator.ts`.
`mkFilesContext` models the `createFilesContext` collaborator. -/
def LangChainAgents.CodeGeneratorAgent.execute (invoke : LcInvoke)
    (mkFilesContext : FileMap → String) (messages : List Message)
    (context : AgentContext) : List StreamEvent × Except AgentError AgentResult :=
  let newProgressCounter := context.progressCounter + 1
  let startEvent := StreamEvent.progress
    ( createProgressAnnotation "code-gen" "Generating code..." ProgressStatus.inProgress
      newProgressCounter)
  let failEvents := [startEvent,
    StreamEvent.progress ( createProgressAnnotation "code-gen"
      "Failed to generate code" ProgressStatus.error newProgressCounter)]
  match messages.reverse.find? (fun m => m.role == Role.user) with
  | none => (failEvents, .error (.noUserMessage "No user message found for code generation"))
  | some lastUserMessage =>
    let messageContent := contentText lastUserMessage.content
    let filesContext :=
      match context.files with
      | some files => if 0 < files.length then mkFilesContext files else ""
      | none => ""
    let modelInfo := extractModelInfo lastUserMessage
    let apiKey := getApiKey context modelInfo.providerName
    if apiKey = "" then
      (failEvents, .error (.noApiKey modelInfo.providerName))
    else
      let llm := createLangChainModel context.procEnv modelInfo.providerName
        modelInfo.model apiKey 0
      let systemMessage :=
        if filesContext = "" then lcCodeGenBaseSystem
        else lcCodeGenBaseSystem ++ "\n\nHere is the context from the existing files:\n"
          ++ filesContext
      let prompt := lcCodeGenPrompt messageContent
      match invoke llm
          [{ role := Role.system, content := Content.str systemMessage, id := "" },
           { role := Role.user, content := Content.str prompt, id := "" }] with
      | .ok responseContent =>
        let generatedCode := jsTrim responseContent
        let estimatedUsage : Usage :=
          { promptTokens := ceilDiv4 (systemMessage.length + prompt.length)
            completionTokens := ceilDiv4 generatedCode.length
            totalTokens := ceilDiv4 (systemMessage.length + prompt.length
              + generatedCode.length) }
        ([startEvent,
          StreamEvent.progress ( createProgressAnnotation "code-gen"
            "Code generated successfully" ProgressStatus.complete newProgressCounter)],
         .ok { output := generatedCode, usage := some estimatedUsage
               progressCounter := newProgressCounter })
      | .error e => (failEvents, .error (.external e))

/-- Simplified `JSON.stringify` of an array-shaped message content, used
only for the display-side `original` field of the prompt-comparison event
(string escaping elided; no claim depends on this rendering). -/
def jsonStringifyParts (l : List ContentPart) : String :=
  "[" ++ String.intercalate ","
    (l.map (fun p =>
      "\x7b\"type\":\"" ++ p.type ++ "\""
        ++ (match p.text with
            | some t => ",\"text\":\"" ++ t ++ "\""
            | none => "") ++ "\x7d")) ++ "]"

/-- `originalPrompt` display string of the orchestrator: the last user
message's content (`|| ''`), passed through as a string or JSON-rendered
when it is an array. -/
def origPromptDisplay (messages : List Message) : String :=
  match messages.reverse.find? (fun m => m.role == Role.user) with
  | none => ""
  | some lastUserMessage =>
    match lastUserMessage.content with
    | .str s => s
    | .parts l => jsonStringifyParts l

/-- Index of the last `user` message, computed as the orchestrator does:
map to `{role, idx}`, filter on `role === 'user'`, pop the last entry. -/
def lastUserIndex? (messages : List Message) : Option Nat :=
  (((messages.enum).filter (fun p => p.2.role == Role.user)).getLast?).map (fun p => p.1)

/-- Replace the last user message by the enhanced user message, or append
it when no user message exists (orchestrator lines 133-147). -/
def replaceLastUser (messages : List Message) (enhancedUserMessage : Message) :
    List Message :=
  match lastUserIndex? messages with
  | some lastUserIndexVal => messages.set lastUserIndexVal enhancedUserMessage
  | none => messages ++ [enhancedUserMessage]

/-- The new user message constructed by the orchestrator: the preserved
model/provider tags plus the enhanced prompt, with a generated id. -/
def mkEnhancedUserMessage (genId : String) (modelInfo : ModelInfo)
    (enhancedPrompt : String) : Message :=
  { role := Role.user
    content := Content.str (embedTags modelInfo.model modelInfo.providerName enhancedPrompt)
    id := genId }

/-- `orchestrateLangChainAgents` of `langchain-agents/orchestrator.ts`:
reset the progress counter to 0, run the LangChain prompt enhancer, emit
the prompt-comparison event, substitute the enhanced prompt for the last
user message, run the LangChain code generator with the carried-forward
counter, and combine both stages' usage field-wise (absent usage counting
as zero).  `genId` models `generateId()`.  Stage errors propagate after
the events written so far. -/
def orchestrateLangChainAgents (invokeE invokeG : LcInvoke)
    (mkFilesContext : FileMap → String) (genId : String)
    (messages : List Message) (context : AgentContext) :
    List StreamEvent × Except AgentError OrchestratorResult :=
  let agentContext := { context with progressCounter := 0 }
  let originalPrompt := origPromptDisplay messages
  let modelInfo := lcLastModelInfo messages
  match LangChainAgents.PromptEnhancerAgent.execute invokeE messages agentContext with
  | (enhancerEvents, .error e) => (enhancerEvents, .error e)
  | (enhancerEvents, .ok enhancerResult) =>
    let enhancedPrompt := enhancerResult.output
    let comparisonEvent := StreamEvent.promptComparison originalPrompt enhancedPrompt
    let progressCounter := enhancerResult.progressCounter
    let enhancedUserMessage := mkEnhancedUserMessage genId modelInfo enhancedPrompt
    let messagesWithEnhancedPrompt := replaceLastUser messages enhancedUserMessage
    let updatedContext := { agentContext with progressCounter := progressCounter }
    match LangChainAgents.CodeGeneratorAgent.execute invokeG mkFilesContext
        messagesWithEnhancedPrompt updatedContext with
    | (codeGenEvents, .error e) =>
      (enhancerEvents ++ [comparisonEvent] ++ codeGenEvents, .error e)
    | (codeGenEvents, .ok codeGenResult) =>
      let generatedCode := codeGenResult.output
      let combinedUsage : Usage :=
        { completionTokens :=
            ((enhancerResult.usage.map Usage.completionTokens).getD 0)
              + ((codeGenResult.usage.map Usage.completionTokens).getD 0)
          promptTokens :=
            ((enhancerResult.usage.map Usage.promptTokens).getD 0)
              + ((codeGenResult.usage.map Usage.promptTokens).getD 0)
          totalTokens :=
            ((enhancerResult.usage.map Usage.totalTokens).getD 0)
              + ((codeGenResult.usage.map Usage.totalTokens).getD 0) }
      (enhancerEvents ++ [comparisonEvent] ++ codeGenEvents,
       .ok { text := generatedCode, usage := combinedUsage })

/-- The `order` values of the progress events of an event list, in emission
order. -/
def progressOrders (events : List StreamEvent) : List Nat :=
  events.filterMap (fun e =>
    match e with
    | .progress p => some p.order
    | .promptComparison _ _ => none)

/-- Recursive characterization of the index of the last user message,
used to reason about `lastUserIndex?`. -/
def findLastUser? : List Message → Option Nat
  | [] => none
  | m :: ms =>
    match findLastUser? ms with
    | some i => some (i + 1)
    | none => if m.role == Role.user then some 0 else none

/-- Modelled from the spec: the display name under which the per-request
key map is consulted for a provider (the branch keys of `getApiKey`). -/
def apiKeyMapName (provider : String) : String :=
  if lowerStr provider = "anthropic" then "Anthropic"
  else if lowerStr provider = "openai" then "OpenAI"
  else if lowerStr provider = "groq" then "Groq"
  else provider

/-- Modelled from the spec: the `<PROVIDER>_API_KEY` environment variable
name consulted for a provider (the branch keys of `getApiKey`). -/
def apiKeyEnvName (provider : String) : String :=
  if lowerStr provider = "anthropic" then "ANTHROPIC_API_KEY"
  else if lowerStr provider = "openai" then "OPENAI_API_KEY"
  else if lowerStr provider = "groq" then "GROQ_API_KEY"
  else upperStr provider ++ "_API_KEY"

/-- A concrete tagged user message, used by the witness runs. -/
def msgUserW : Message :=
  { role := Role.user
    content := Content.str "[Model: gpt-4]\n\n[Provider: openai]\n\nwrite code"
    id := "m1" }

/-- A context with no key sources at all. -/
def ctxEmptyW : AgentContext :=
  { env := fun _ => none, procEnv := fun _ => none, apiKeys := fun _ => none
    files := none, promptId := none, contextOptimization := false, progressCounter := 0 }

/-- A context with one key in each of the three sources. -/
def ctxKeysW : AgentContext :=
  { env := fun k => if k = "OPENAI_API_KEY" then some "e2" else none
    procEnv := fun k => if k = "GROQ_API_KEY" then some "p3" else none
    apiKeys := fun k => if k = "Anthropic" then some "a1" else none
    files := none, promptId := none, contextOptimization := false, progressCounter := 0 }

/-- A context with an OpenAI key in the per-request key map. -/
def ctxOpenAIW : AgentContext :=
  { env := fun _ => none, procEnv := fun _ => none
    apiKeys := fun k => if k = "OpenAI" then some "sk-test" else none
    files := none, promptId := none, contextOptimization := false, progressCounter := 0 }

/-- A LangChain invocation oracle that always answers `done`. -/
def invokeOkW : LcInvoke := fun _ _ => .ok "done"

/-- A `streamText` oracle that always answers `done` with fixed usage. -/
def llmOkW : LlmCall :=
  fun _ _ => .ok ("done", some { completionTokens := 3, promptTokens := 4, totalTokens := 7 })

/-- The (amended) two-event contract of one stage execution: first an
`in-progress` event, then a final event with the same label and order,
whose written status is `complete` (an `error` request is coerced); both
orders are the incoming counter plus one, which is also the returned
`progressCounter` on success. -/
def stageEventShape (label startMsg : String) (c : Nat)
    (out : List StreamEvent × Except AgentError AgentResult) : Prop :=
  ∃ p2 : ProgressAnnotation,
    out.1 = [StreamEvent.progress ⟨label, ProgressStatus.inProgress, c + 1, startMsg⟩,
             StreamEvent.progress p2]
    ∧ p2.label = label ∧ p2.order = c + 1 ∧ p2.status = ProgressStatus.complete
    ∧ ∀ r, out.2 = .ok r → r.progressCounter = c + 1

/-- The LangChain enhancer's result on the concrete witness run. -/
def erW : AgentResult :=
  { output := "done"
    usage := some
      { completionTokens := 1
        promptTokens := ceilDiv4 (lcEnhancerPrompt (contentText msgUserW.content)).length
        totalTokens := ceilDiv4 ((lcEnhancerPrompt (contentText msgUserW.content)).length + 4) }
    progressCounter := 1 }

/-- Events of the witness enhancer stage. -/
def ev1W : List StreamEvent :=
  [StreamEvent.progress ⟨"enhance", ProgressStatus.inProgress, 1, "Enhancing prompt..."⟩,
   StreamEvent.progress ⟨"enhance", ProgressStatus.complete, 1, "Prompt enhanced successfully"⟩]

/-- Events of the witness code-generation stage. -/
def ev2W : List StreamEvent :=
  [StreamEvent.progress ⟨"code-gen", ProgressStatus.inProgress, 2, "Generating code..."⟩,
   StreamEvent.progress ⟨"code-gen", ProgressStatus.complete, 2, "Code generated successfully"⟩]

/-- The enhanced user message of the witness run. -/
def genMsgW : Message :=
  mkEnhancedUserMessage "id0" { model := "gpt-4", providerName := "openai" } "done"

/-- The LangChain code generator's result on the witness run. -/
def grW : AgentResult :=
  { output := "done"
    usage := some
      { completionTokens := 1
        promptTokens := ceilDiv4 (lcCodeGenBaseSystem.length
          + (lcCodeGenPrompt (contentText genMsgW.content)).length)
        totalTokens := ceilDiv4 (lcCodeGenBaseSystem.length
          + (lcCodeGenPrompt (contentText genMsgW.content)).length + 4) }
    progressCounter := 2 }

/-- The orchestrator result of the witness run. -/
def resW : OrchestratorResult :=
  { text := "done"
    usage :=
      { completionTokens := (erW.usage.map Usage.completionTokens).getD 0
          + (grW.usage.map Usage.completionTokens).getD 0
        promptTokens := (erW.usage.map Usage.promptTokens).getD 0
          + (grW.usage.map Usage.promptTokens).getD 0
        totalTokens := (erW.usage.map Usage.totalTokens).getD 0
          + (grW.usage.map Usage.totalTokens).getD 0 } }

theorem lcEnh_noUser (invoke : LcInvoke) (messages : List Message) (ctx : AgentContext)
    (h : messages.reverse.find? (fun m => m.role == Role.user) = none) :
    LangChainAgents.PromptEnhancerAgent.execute invoke messages ctx
      = ([], .error (.noUserMessage "No user message found to enhance")) := by
  unfold LangChainAgents.PromptEnhancerAgent.execute
  rw [h]

theorem lcEnh_events_user (invoke : LcInvoke) (messages : List Message) (ctx : AgentContext)
    (m : Message) (h : messages.reverse.find? (fun x => x.role == Role.user) = some m) :
    ∃ p2 : ProgressAnnotation,
      (LangChainAgents.PromptEnhancerAgent.execute invoke messages ctx).1
        = [StreamEvent.progress ⟨"enhance", ProgressStatus.inProgress, ctx.progressCounter + 1,
             "Enhancing prompt..."⟩, StreamEvent.progress p2]
      ∧ p2.label = "enhance" ∧ p2.order = ctx.progressCounter + 1
      ∧ p2.status = ProgressStatus.complete := by
  unfold LangChainAgents.PromptEnhancerAgent.execute
  rw [h]
  simp only [ createProgressAnnotation]
  split
  · exact ⟨_, rfl, rfl, rfl, rfl⟩
  · split
    · exact ⟨_, rfl, rfl, rfl, rfl⟩
    · exact ⟨_, rfl, rfl, rfl, rfl⟩

theorem lcEnh_ok (invoke : LcInvoke) (messages : List Message) (ctx : AgentContext)
    (r : AgentResult)
    (h : (LangChainAgents.PromptEnhancerAgent.execute invoke messages ctx).2 = .ok r) :
    r.progressCounter = ctx.progressCounter + 1 ∧
    ∃ p : Nat, r.usage = some
      { completionTokens := ceilDiv4 r.output.length
        promptTokens := ceilDiv4 p
        totalTokens := ceilDiv4 (p + r.output.length) } := by
  unfold LangChainAgents.PromptEnhancerAgent.execute at h
  split at h
  · simp at h
  · dsimp only at h
    split at h
    · simp at h
    · split at h
      · simp only [Except.ok.injEq] at h
        subst h
        exact ⟨rfl, _, rfl⟩
      · simp at h

theorem lcGen_events (invoke : LcInvoke) (mkFC : FileMap → String) (messages : List Message)
    (ctx : AgentContext) :
    ∃ p2 : ProgressAnnotation,
      (LangChainAgents.CodeGeneratorAgent.execute invoke mkFC messages ctx).1
        = [StreamEvent.progress ⟨"code-gen", ProgressStatus.inProgress, ctx.progressCounter + 1,
             "Generating code..."⟩, StreamEvent.progress p2]
      ∧ p2.label = "code-gen" ∧ p2.order = ctx.progressCounter + 1
      ∧ p2.status = ProgressStatus.complete := by
  unfold LangChainAgents.CodeGeneratorAgent.execute
  split
  · exact ⟨_, rfl, rfl, rfl, rfl⟩
  · dsimp only
    split
    · exact ⟨_, rfl, rfl, rfl, rfl⟩
    · split
      · exact ⟨_, rfl, rfl, rfl, rfl⟩
      · exact ⟨_, rfl, rfl, rfl, rfl⟩

theorem lcGen_ok (invoke : LcInvoke) (mkFC : FileMap → String) (messages : List Message)
    (ctx : AgentContext) (r : AgentResult)
    (h : (LangChainAgents.CodeGeneratorAgent.execute invoke mkFC messages ctx).2 = .ok r) :
    r.progressCounter = ctx.progressCounter + 1 ∧
    ∃ p : Nat, r.usage = some
      { completionTokens := ceilDiv4 r.output.length
        promptTokens := ceilDiv4 p
        totalTokens := ceilDiv4 (p + r.output.length) } := by
  unfold LangChainAgents.CodeGeneratorAgent.execute at h
  split at h
  · simp at h
  · dsimp only at h
    split at h
    · simp at h
    · split at h
      · simp only [Except.ok.injEq] at h
        subst h
        exact ⟨rfl, _, rfl⟩
      · simp at h

theorem stdEnh_noUser (llm : LlmCall) (messages : List Message) (ctx : AgentContext)
    (h : messages.reverse.find? (fun m => m.role == Role.user) = none) :
    Agents.PromptEnhancerAgent.execute llm messages ctx
      = ([], .error (.noUserMessage "No user message found to enhance")) := by
  unfold Agents.PromptEnhancerAgent.execute
  rw [h]

theorem stdEnh_events_user (llm : LlmCall) (messages : List Message) (ctx : AgentContext)
    (m : Message) (h : messages.reverse.find? (fun x => x.role == Role.user) = some m) :
    ∃ p2 : ProgressAnnotation,
      (Agents.PromptEnhancerAgent.execute llm messages ctx).1
        = [StreamEvent.progress ⟨"enhance", ProgressStatus.inProgress, ctx.progressCounter + 1,
             "Enhancing prompt..."⟩, StreamEvent.progress p2]
      ∧ p2.label = "enhance" ∧ p2.order = ctx.progressCounter + 1
      ∧ p2.status = ProgressStatus.complete := by
  unfold Agents.PromptEnhancerAgent.execute
  rw [h]
  dsimp only
  split
  · exact ⟨_, rfl, rfl, rfl, rfl⟩
  · exact ⟨_, rfl, rfl, rfl, rfl⟩

theorem stdEnh_ok (llm : LlmCall) (messages : List Message) (ctx : AgentContext)
    (r : AgentResult)
    (h : (Agents.PromptEnhancerAgent.execute llm messages ctx).2 = .ok r) :
    r.progressCounter = ctx.progressCounter + 1 := by
  unfold Agents.PromptEnhancerAgent.execute at h
  split at h
  · simp at h
  · dsimp only at h
    split at h
    · simp only [Except.ok.injEq] at h
      subst h
      rfl
    · simp at h

theorem stdGen_events (llm : LlmCall) (mkFC : FileMap → String) (selectCtx : Except String String)
    (messages : List Message) (ctx : AgentContext) :
    ∃ p2 : ProgressAnnotation,
      (Agents.CodeGeneratorAgent.execute llm mkFC selectCtx messages ctx).1
        = [StreamEvent.progress ⟨"code-gen", ProgressStatus.inProgress, ctx.progressCounter + 1,
             "Generating code..."⟩, StreamEvent.progress p2]
      ∧ p2.label = "code-gen" ∧ p2.order = ctx.progressCounter + 1
      ∧ p2.status = ProgressStatus.complete := by
  unfold Agents.CodeGeneratorAgent.execute
  dsimp only
  split
  · exact ⟨_, rfl, rfl, rfl, rfl⟩
  · split
    · exact ⟨_, rfl, rfl, rfl, rfl⟩
    · exact ⟨_, rfl, rfl, rfl, rfl⟩

theorem stdGen_ok (llm : LlmCall) (mkFC : FileMap → String) (selectCtx : Except String String)
    (messages : List Message) (ctx : AgentContext) (r : AgentResult)
    (h : (Agents.CodeGeneratorAgent.execute llm mkFC selectCtx messages ctx).2 = .ok r) :
    r.progressCounter = ctx.progressCounter + 1 := by
  unfold Agents.CodeGeneratorAgent.execute at h
  dsimp only at h
  split at h
  · simp at h
  · split at h
    · simp only [Except.ok.injEq] at h
      subst h
      rfl
    · simp at h

theorem find?_user_none_iff (messages : List Message) :
    messages.reverse.find? (fun m => m.role == Role.user) = none
      ↔ ∀ m ∈ messages, m.role ≠ Role.user := by
  simp [List.find?_eq_none, List.mem_reverse]

theorem find?_user_some_of_exists (messages : List Message)
    (h : ∃ m ∈ messages, m.role = Role.user) :
    ∃ m, messages.reverse.find? (fun x => x.role == Role.user) = some m := by
  cases hf : messages.reverse.find? (fun x => x.role == Role.user) with
  | none =>
    obtain ⟨m, hm, hrole⟩ := h
    exact absurd hrole ((find?_user_none_iff messages).mp hf m hm)
  | some m => exact ⟨m, rfl⟩

theorem lcEnh_user_no_missing (invoke : LcInvoke) (messages : List Message)
    (ctx : AgentContext) (m : Message)
    (h : messages.reverse.find? (fun x => x.role == Role.user) = some m) (msg : String) :
    (LangChainAgents.PromptEnhancerAgent.execute invoke messages ctx).2
      ≠ .error (.noUserMessage msg) := by
  unfold LangChainAgents.PromptEnhancerAgent.execute
  rw [h]
  dsimp only
  split
  · simp
  · split
    · simp
    · simp

theorem stdEnh_user_no_missing (llm : LlmCall) (messages : List Message)
    (ctx : AgentContext) (m : Message)
    (h : messages.reverse.find? (fun x => x.role == Role.user) = some m) (msg : String) :
    (Agents.PromptEnhancerAgent.execute llm messages ctx).2
      ≠ .error (.noUserMessage msg) := by
  unfold Agents.PromptEnhancerAgent.execute
  rw [h]
  dsimp only
  split
  · simp
  · simp

theorem enumFrom_filter_getLast (l : List Message) (n : Nat) :
    (((List.enumFrom n l).filter (fun p => p.2.role == Role.user)).getLast?).map
        (fun p => p.1)
      = (findLastUser? l).map (fun i => i + n) := by
  induction l generalizing n with
  | nil => rfl
  | cons m ms ih =>
    rw [List.enumFrom_cons, List.filter_cons]
    dsimp only
    by_cases hm : (m.role == Role.user) = true
    · rw [if_pos hm]
      rw [List.getLast?_cons]
      cases hms : findLastUser? ms with
      | some i =>
        have := ih (n + 1)
        rw [hms] at this
        cases hq : (List.filter (fun p => p.2.role == Role.user)
            (List.enumFrom (n + 1) ms)).getLast? with
        | none => rw [hq] at this; simp at this
        | some q =>
          rw [hq] at this
          simp only [Option.map_some', Option.some.injEq] at this
          simp only [findLastUser?, hms, hq, Option.getD_some, Option.map_some',
            Option.some.injEq]
          omega
      | none =>
        have := ih (n + 1)
        rw [hms] at this
        simp only [Option.map_none'] at this
        have hq : (List.filter (fun p => p.2.role == Role.user)
            (List.enumFrom (n + 1) ms)).getLast? = none := Option.map_eq_none'.mp this
        simp only [findLastUser?, hms, hq, Option.getD_none, Option.map_some', hm, if_true]
        simp
    · rw [if_neg hm]
      have := ih (n + 1)
      cases hms : findLastUser? ms with
      | some i =>
        rw [hms] at this
        rw [this]
        simp only [findLastUser?, hms, Option.map_some', Option.some.injEq]
        omega
      | none =>
        rw [hms] at this
        rw [this]
        simp [findLastUser?, hms, hm]

theorem lastUserIndex?_eq (messages : List Message) :
    lastUserIndex? messages = (findLastUser? messages).map (fun i => i) := by
  have := enumFrom_filter_getLast messages 0
  simp only [Nat.add_zero] at this
  unfold lastUserIndex?
  rw [show messages.enum = List.enumFrom 0 messages from rfl]
  rw [this]

theorem findLastUser?_none_iff (l : List Message) :
    findLastUser? l = none ↔ ∀ m ∈ l, m.role ≠ Role.user := by
  induction l with
  | nil => simp [findLastUser?]
  | cons m ms ih =>
    unfold findLastUser?
    cases hms : findLastUser? ms with
    | some i =>
      simp only [hms]
      constructor
      · intro h; cases h
      · intro h
        exact absurd (ih.mpr (fun x hx => h x (List.mem_cons_of_mem m hx))) (by simp [hms])
    | none =>
      by_cases hm : (m.role == Role.user) = true
      · simp only [hms, hm, if_true]
        constructor
        · intro h; cases h
        · intro h
          exact absurd (by simpa using hm) (h m (List.mem_cons_self m ms))
      · simp only [hms, hm, if_false]
        constructor
        · intro _ x hx
          rcases List.mem_cons.mp hx with rfl | hx'
          · simpa using hm
          · exact (ih.mp hms) x hx'
        · intro _; rfl

theorem findLastUser?_lt (l : List Message) (i : Nat) (h : findLastUser? l = some i) :
    i < l.length := by
  induction l generalizing i with
  | nil => cases h
  | cons m ms ih =>
    unfold findLastUser? at h
    cases hms : findLastUser? ms with
    | some j =>
      rw [hms] at h
      cases h
      have := ih j hms
      simp only [List.length_cons]
      omega
    | none =>
      rw [hms] at h
      by_cases hm : (m.role == Role.user) = true
      · rw [if_pos hm] at h
        cases h
        simp
      · rw [if_neg hm] at h
        cases h

theorem findLastUser?_user (l : List Message) (i : Nat) (h : findLastUser? l = some i) :
    ∃ m, l[i]? = some m ∧ m.role = Role.user := by
  induction l generalizing i with
  | nil => cases h
  | cons m ms ih =>
    unfold findLastUser? at h
    cases hms : findLastUser? ms with
    | some j =>
      rw [hms] at h
      cases h
      obtain ⟨m', hm', hrole⟩ := ih j hms
      exact ⟨m', by simpa [List.getElem?_cons_succ] using hm', hrole⟩
    | none =>
      rw [hms] at h
      by_cases hm : (m.role == Role.user) = true
      · rw [if_pos hm] at h
        cases h
        exact ⟨m, List.getElem?_cons_zero, by simpa using hm⟩
      · rw [if_neg hm] at h
        cases h

theorem findLastUser?_last (l : List Message) (i : Nat) (h : findLastUser? l = some i)
    (j : Nat) (m' : Message) (hij : i < j) (hj : l[j]? = some m') :
    m'.role ≠ Role.user := by
  induction l generalizing i j with
  | nil => cases h
  | cons m ms ih =>
    unfold findLastUser? at h
    cases hms : findLastUser? ms with
    | some k =>
      rw [hms] at h
      cases h
      cases j with
      | zero => omega
      | succ j' =>
        rw [List.getElem?_cons_succ] at hj
        exact ih k hms j' (by omega) hj
    | none =>
      rw [hms] at h
      by_cases hm : (m.role == Role.user) = true
      · rw [if_pos hm] at h
        cases h
        cases j with
        | zero => omega
        | succ j' =>
          rw [List.getElem?_cons_succ] at hj
          have hmem : m' ∈ ms := List.getElem?_mem hj
          exact (findLastUser?_none_iff ms).mp hms m' hmem
      · rw [if_neg hm] at h
        cases h

theorem captureUpto_append (m r : List Char)
    (hm : ∀ c ∈ m, c ≠ ']' ∧ c ≠ '\n') :
    captureUpto (m ++ ']' :: r) = some m := by
  induction m with
  | nil => simp [captureUpto]
  | cons c cs ih =>
    have hc := hm c (List.mem_cons_self c cs)
    have ih' := ih (fun x hx => hm x (List.mem_cons_of_mem c hx))
    simp only [List.cons_append, captureUpto, hc.1, hc.2, if_false, List.append_eq, ih',
      Option.map_some']

theorem tryMatch_self (tag r : List Char) : tryMatch tag (tag ++ r) = captureUpto r := by
  induction tag with
  | nil => rfl
  | cons c cs ih => simp [tryMatch, List.cons_append, List.append_eq, ih]

theorem tryMatch_isPre (tag l : List Char) (h : tryMatch tag l ≠ none) : tag <+: l := by
  induction tag generalizing l with
  | nil => exact List.nil_prefix
  | cons c cs ih =>
    cases l with
    | nil => exact absurd rfl h
    | cons d ds =>
      unfold tryMatch at h
      by_cases hd : d = c
      · rw [if_pos hd] at h
        subst hd
        exact List.cons_prefix_cons.mpr ⟨rfl, ih ds h⟩
      · rw [if_neg hd] at h
        exact absurd rfl h

theorem tagCaptureAux_head (tag r cap : List Char) (htag : tag ≠ [])
    (h : tryMatch tag (tag ++ r) = some cap) :
    tagCaptureAux tag (tag ++ r) = some cap := by
  cases tag with
  | nil => exact absurd rfl htag
  | cons c cs =>
    rw [List.cons_append]
    unfold tagCaptureAux
    rw [← List.cons_append, h]

theorem tagCaptureAux_skip (tag preL rest : List Char)
    (h : ∀ s, s ≠ [] → s <:+ preL → tryMatch tag (s ++ rest) = none) :
    tagCaptureAux tag (preL ++ rest) = tagCaptureAux tag rest := by
  induction preL with
  | nil => rfl
  | cons c cs ih =>
    rw [List.cons_append]
    unfold tagCaptureAux
    cases rest with
    | nil =>
      have := h (c :: cs) (by simp) List.suffix_rfl
      rw [List.append_nil] at this ⊢
      rw [this]
      have ih' := ih (fun s hs hsuf => h s hs (hsuf.trans (List.suffix_cons c cs)))
      rw [List.append_nil] at ih'
      exact ih'
    | cons d ds =>
      have hmain := h (c :: cs) (by simp) List.suffix_rfl
      rw [List.cons_append] at hmain
      rw [hmain]
      exact ih (fun s hs hsuf => h s hs (hsuf.trans (List.suffix_cons c cs)))

theorem suffix_concat_decomp (s q : List Char) (x : Char) (hs : s ≠ [])
    (h : s <:+ q ++ [x]) : ∃ s₀, s₀ <:+ q ∧ s = s₀ ++ [x] := by
  obtain ⟨u, hu⟩ := h
  cases hsr : s.reverse with
  | nil => exact absurd (by simpa using hsr) hs
  | cons y ys =>
    have hs' : s = ys.reverse ++ [y] := by
      have := congrArg List.reverse hsr
      simpa using this
    subst hs'
    rw [← List.append_assoc] at hu
    have hy : y = x := by
      have := congrArg (fun l => l.getLast?) hu
      simpa [List.getLast?_append] using this
    subst hy
    refine ⟨ys.reverse, ⟨u, ?_⟩, rfl⟩
    have := List.append_inj_left' hu (by rfl)
    exact this

theorem prefix_append_split (t a b : List Char) (h : t <+: a ++ b) :
    t <+: a ∨ ∃ t₁, t₁ ≠ [] ∧ t = a ++ t₁ ∧ t₁ <+: b := by
  induction a generalizing t with
  | nil =>
    cases t with
    | nil => exact Or.inl List.nil_prefix
    | cons c cs => exact Or.inr ⟨c :: cs, by simp, rfl, by simpa using h⟩
  | cons c cs ih =>
    cases t with
    | nil => exact Or.inl List.nil_prefix
    | cons d ds =>
      rw [List.cons_append] at h
      obtain ⟨hdc, hds⟩ := List.cons_prefix_cons.mp h
      subst hdc
      rcases ih ds hds with h1 | ⟨t₁, ht1, heq, hpre⟩
      · exact Or.inl (List.cons_prefix_cons.mpr ⟨rfl, h1⟩)
      · exact Or.inr ⟨t₁, ht1, by rw [List.cons_append, heq], hpre⟩

theorem provider_skip_hyp (Md : List Char) (restB : List Char)
    (hMP : ¬ ("[Provider: ".data <:+: ("[Model: ".data ++ Md ++ [']', '\n', '\n']))) :
    ∀ s, s ≠ [] → s <:+ ("[Model: ".data ++ Md ++ [']', '\n', '\n']) →
      tryMatch "[Provider: ".data (s ++ restB) = none := by
  intro s hs hsuf
  cases htm : tryMatch "[Provider: ".data (s ++ restB) with
  | none => rfl
  | some cap =>
    exfalso
    have hpre : "[Provider: ".data <+: s ++ restB :=
      tryMatch_isPre _ _ (by rw [htm]; simp)
    have hq : ("[Model: ".data ++ Md ++ [']', '\n', '\n'])
        = ("[Model: ".data ++ Md ++ [']', '\n']) ++ ['\n'] := by simp
    rw [hq] at hsuf
    obtain ⟨s₀, hs₀q, rfl⟩ := suffix_concat_decomp s _ '\n' hs hsuf
    have hra : s₀ ++ ['\n'] ++ restB = s₀ ++ ('\n' :: restB) := by simp
    rw [hra] at hpre
    rcases prefix_append_split _ _ _ hpre with hcase1 | ⟨t₁, ht1ne, hteq, ht1pre⟩
    · have hinq : "[Provider: ".data <:+: ("[Model: ".data ++ Md ++ [']', '\n']) :=
        List.infix_iff_prefix_suffix.mpr ⟨s₀, hcase1, hs₀q⟩
      have hqpre : ("[Model: ".data ++ Md ++ [']', '\n'])
          <:+: ("[Model: ".data ++ Md ++ [']', '\n', '\n']) := by
        rw [hq]
        exact (List.prefix_append _ _).isInfix
      exact hMP (hinq.trans hqpre)
    · have hnl : '\n' ∈ "[Provider: ".data := by
        cases t₁ with
        | nil => exact absurd rfl ht1ne
        | cons c t₂ =>
          obtain ⟨hc, _⟩ := List.cons_prefix_cons.mp ht1pre
          rw [hteq, hc]
          exact List.mem_append_right _ (List.mem_cons_self _ _)
      revert hnl
      decide

theorem tagExtract_lists (Md Pd td : List Char)
    (hM : ∀ c ∈ Md, c ≠ ']' ∧ c ≠ '\n')
    (hP : ∀ c ∈ Pd, c ≠ ']' ∧ c ≠ '\n')
    (hMP : ¬ ("[Provider: ".data <:+: ("[Model: ".data ++ Md ++ [']', '\n', '\n']))) :
    tagCaptureAux "[Model: ".data
        ("[Model: ".data ++ (Md ++ (']' :: '\n' :: '\n' ::
          ("[Provider: ".data ++ (Pd ++ (']' :: '\n' :: '\n' :: td)))))) = some Md
  ∧ tagCaptureAux "[Provider: ".data
        ("[Model: ".data ++ (Md ++ (']' :: '\n' :: '\n' ::
          ("[Provider: ".data ++ (Pd ++ (']' :: '\n' :: '\n' :: td)))))) = some Pd := by
  constructor
  · apply tagCaptureAux_head
    · decide
    · rw [tryMatch_self]
      exact captureUpto_append Md _ hM
  · have hassoc : "[Model: ".data ++ (Md ++ (']' :: '\n' :: '\n' ::
          ("[Provider: ".data ++ (Pd ++ (']' :: '\n' :: '\n' :: td)))))
        = ("[Model: ".data ++ Md ++ [']', '\n', '\n'])
            ++ ("[Provider: ".data ++ (Pd ++ (']' :: '\n' :: '\n' :: td))) := by
      simp
    rw [hassoc]
    rw [tagCaptureAux_skip _ _ _ (provider_skip_hyp Md _ hMP)]
    apply tagCaptureAux_head
    · decide
    · rw [tryMatch_self]
      exact captureUpto_append Pd _ hP

theorem embedTags_data (M P t : String) :
    (embedTags M P t).data
      = "[Model: ".data ++ (M.data ++ (']' :: '\n' :: '\n' ::
          ("[Provider: ".data ++ (P.data ++ (']' :: '\n' :: '\n' :: t.data))))) := by
  unfold embedTags
  simp [String.data_append, List.append_assoc]

/-- C4 amended: embedding the `[Model: M]` and `[Provider: P]` tags the
way the orchestrator constructs the enhanced user message and resolving
`ModelInfo` from it yields exactly `{M, P}`, provided `M` and `P` contain
no `]` and no newline and `[Provider: ` does not occur inside the model
tag segment (without these conditions the lazy captures go wrong, see the
counterexample). -/
theorem tagRoundTrip (genId M P t : String)
    (hM : ∀ c ∈ M.data, c ≠ ']' ∧ c ≠ '\n')
    (hP : ∀ c ∈ P.data, c ≠ ']' ∧ c ≠ '\n')
    (hMP : ¬ ("[Provider: ".data <:+: ("[Model: ".data ++ M.data ++ [']', '\n', '\n']))) :
    extractModelInfo (mkEnhancedUserMessage genId { model := M, providerName := P } t)
      = { model := M, providerName := P } := by
  obtain ⟨hmod, hprov⟩ := tagExtract_lists M.data P.data t.data hM hP hMP
  unfold mkEnhancedUserMessage extractModelInfo contentText
  dsimp only
  unfold tagCapture
  rw [embedTags_data, hmod, hprov]
  simp only [Option.map_some', Option.getD_some]

/-- C7: createProgressAnnotation maps an `error` status to `complete` and
keeps `in-progress` and `complete` unchanged; no annotation produced through
this helper ever carries status `error`. -/
theorem progressErrorCoercion (label message : String) (order : Nat) :
    ( createProgressAnnotation label message ProgressStatus.error order).status
        = ProgressStatus.complete
  ∧ ( createProgressAnnotation label message ProgressStatus.inProgress order).status
        = ProgressStatus.inProgress
  ∧ ( createProgressAnnotation label message ProgressStatus.complete order).status
        = ProgressStatus.complete
  ∧ ∀ s : ProgressStatus,
      ( createProgressAnnotation label message s order).status ≠ ProgressStatus.error := by
  refine ⟨rfl, rfl, rfl, ?_⟩
  intro s
  cases s <;> simp [ createProgressAnnotation]

/-- C9: for an unrecognized provider, `createLangChainModel` uses the
Anthropic fallback (fixed default model) only when the process-wide
`ANTHROPIC_API_KEY` is non-empty, and otherwise falls back to OpenAI with
the passed key unchecked (for every `apiKey`, even the empty one, and
regardless of any `OPENAI_API_KEY`). -/
theorem unknownProviderFallback (procEnv : String → Option String)
    (provider model apiKey : String) (temperature : ℚ)
    (h1 : lowerStr provider ≠ "anthropic") (h2 : lowerStr provider ≠ "openai")
    (h3 : lowerStr provider ≠ "groq") :
    ((procEnv "ANTHROPIC_API_KEY").getD "" ≠ "" →
      createLangChainModel procEnv provider model apiKey temperature
        = { clientProvider := "anthropic", apiKey := (procEnv "ANTHROPIC_API_KEY").getD ""
            modelName := "claude-3-sonnet-20240229", temperature := temperature
            baseURL := none })
  ∧ ((procEnv "ANTHROPIC_API_KEY").getD "" = "" →
      createLangChainModel procEnv provider model apiKey temperature
        = { clientProvider := "openai", apiKey := apiKey, modelName := jsOr model "gpt-4o"
            temperature := temperature, baseURL := none }) := by
  unfold createLangChainModel
  rw [if_neg h1, if_neg h2, if_neg h3]
  constructor
  · intro h
    rw [if_pos h]
  · intro h
    rw [if_neg (by simp [h])]

/-- Witness for C9 at provider `mistral`: with no process-wide Anthropic key
the fallback is OpenAI with the (empty) passed key; with one present the
fallback is Anthropic with the fixed default model. -/
theorem unknownProviderFallbackWitness :
    createLangChainModel (fun _ => none) "mistral" "mistral-large" "" 0
      = { clientProvider := "openai", apiKey := "", modelName := "mistral-large"
          temperature := 0, baseURL := none }
  ∧ createLangChainModel (fun k => if k = "ANTHROPIC_API_KEY" then some "akey" else none)
        "mistral" "mistral-large" "" 0
      = { clientProvider := "anthropic", apiKey := "akey"
          modelName := "claude-3-sonnet-20240229", temperature := 0, baseURL := none } := by
  constructor
  · exact (unknownProviderFallback (fun _ => none) "mistral" "mistral-large" "" 0
      (by decide) (by decide) (by decide)).2 (by decide)
  · have := (unknownProviderFallback
        (fun k => if k = "ANTHROPIC_API_KEY" then some "akey" else none)
        "mistral" "mistral-large" "" 0 (by decide) (by decide) (by decide)).1 (by decide)
    simpa using this

/-- C8: `getApiKey` resolves, in order, the per-request key map entry under
the provider's display name, the request environment entry under
`<PROVIDER>_API_KEY`, then the process environment variable of the same
name, skipping empty values and returning `""` when all are absent; and
both LangChain agents turn an empty key into the hard failure
`No API key available for provider: ...`. -/
theorem apiKeyResolution (ctx : AgentContext) (provider : String) :
    (getApiKey ctx provider
       = jsOr ((ctx.apiKeys (apiKeyMapName provider)).getD "")
           (jsOr ((ctx.env (apiKeyEnvName provider)).getD "")
             ((ctx.procEnv (apiKeyEnvName provider)).getD "")))
  ∧ ((ctx.apiKeys (apiKeyMapName provider)).getD "" ≠ "" →
       getApiKey ctx provider = (ctx.apiKeys (apiKeyMapName provider)).getD "")
  ∧ ((ctx.apiKeys (apiKeyMapName provider)).getD "" = "" →
     (ctx.env (apiKeyEnvName provider)).getD "" ≠ "" →
       getApiKey ctx provider = (ctx.env (apiKeyEnvName provider)).getD "")
  ∧ ((ctx.apiKeys (apiKeyMapName provider)).getD "" = "" →
     (ctx.env (apiKeyEnvName provider)).getD "" = "" →
       getApiKey ctx provider = (ctx.procEnv (apiKeyEnvName provider)).getD "")
  ∧ (∀ (invoke : LcInvoke) (messages : List Message) (m : Message),
       messages.reverse.find? (fun x => x.role == Role.user) = some m →
       getApiKey ctx (lcLastModelInfo messages).providerName = "" →
       (LangChainAgents.PromptEnhancerAgent.execute invoke messages ctx).2
         = .error (.noApiKey (lcLastModelInfo messages).providerName))
  ∧ (∀ (invoke : LcInvoke) (mkFC : FileMap → String) (messages : List Message) (m : Message),
       messages.reverse.find? (fun x => x.role == Role.user) = some m →
       getApiKey ctx (extractModelInfo m).providerName = "" →
       (LangChainAgents.CodeGeneratorAgent.execute invoke mkFC messages ctx).2
         = .error (.noApiKey (extractModelInfo m).providerName)) := by
  have hmain : getApiKey ctx provider
      = jsOr ((ctx.apiKeys (apiKeyMapName provider)).getD "")
          (jsOr ((ctx.env (apiKeyEnvName provider)).getD "")
            ((ctx.procEnv (apiKeyEnvName provider)).getD "")) := by
    unfold getApiKey apiKeyMapName apiKeyEnvName
    dsimp only
    split_ifs <;> rfl
  refine ⟨hmain, ?_, ?_, ?_, ?_, ?_⟩
  · intro h
    rw [hmain]
    simp [jsOr, h]
  · intro h1 h2
    rw [hmain]
    simp [jsOr, h1, h2]
  · intro h1 h2
    rw [hmain]
    simp [jsOr, h1, h2]
  · intro invoke messages m hfind hkey
    unfold LangChainAgents.PromptEnhancerAgent.execute
    rw [hfind]
    dsimp only
    rw [if_pos hkey]
  · intro invoke mkFC messages m hfind hkey
    unfold LangChainAgents.CodeGeneratorAgent.execute
    rw [hfind]
    dsimp only
    rw [if_pos hkey]

/-- Witness for C8: each source wins in order on a concrete context, and an
absent key makes the LangChain prompt enhancer fail hard. -/
theorem apiKeyResolutionWitness :
    getApiKey ctxKeysW "anthropic" = "a1"
  ∧ getApiKey ctxKeysW "OpenAI" = "e2"
  ∧ getApiKey ctxKeysW "groq" = "p3"
  ∧ getApiKey ctxKeysW "mistral" = ""
  ∧ (LangChainAgents.PromptEnhancerAgent.execute invokeOkW [msgUserW] ctxEmptyW).2
      = .error (.noApiKey "openai") := by
  refine ⟨?_, ?_, ?_, ?_, ?_⟩
  · exact (apiKeyResolution ctxKeysW "anthropic").2.1 (by decide)
  · exact (apiKeyResolution ctxKeysW "OpenAI").2.2.1 (by decide) (by decide)
  · exact (apiKeyResolution ctxKeysW "groq").2.2.2.1 (by decide) (by decide)
  · exact (apiKeyResolution ctxKeysW "mistral").2.2.2.1 (by decide) (by decide)
  · exact (apiKeyResolution ctxEmptyW "ignored").2.2.2.2.1 invokeOkW [msgUserW] msgUserW
      (by decide) (by decide)

/-- C3: with at least one user message, neither prompt-enhancer
implementation can fail with the missing-input error; with none, both
return exactly that error with no events written and without consulting
the model oracle (the result is the same for every oracle). -/
theorem enhancerMissingInput (llm : LlmCall) (invoke : LcInvoke)
    (messages : List Message) (ctx : AgentContext) :
    ((∃ m ∈ messages, m.role = Role.user) →
        ∀ msg : String,
        (Agents.PromptEnhancerAgent.execute llm messages ctx).2
            ≠ .error (.noUserMessage msg)
      ∧ (LangChainAgents.PromptEnhancerAgent.execute invoke messages ctx).2
            ≠ .error (.noUserMessage msg))
  ∧ ((∀ m ∈ messages, m.role ≠ Role.user) →
        Agents.PromptEnhancerAgent.execute llm messages ctx
            = ([], .error (.noUserMessage "No user message found to enhance"))
      ∧ LangChainAgents.PromptEnhancerAgent.execute invoke messages ctx
            = ([], .error (.noUserMessage "No user message found to enhance"))) := by
  constructor
  · intro hex msg
    obtain ⟨m, hm⟩ := find?_user_some_of_exists messages hex
    exact ⟨stdEnh_user_no_missing llm messages ctx m hm msg,
           lcEnh_user_no_missing invoke messages ctx m hm msg⟩
  · intro hall
    have hnone := (find?_user_none_iff messages).mpr hall
    exact ⟨stdEnh_noUser llm messages ctx hnone, lcEnh_noUser invoke messages ctx hnone⟩

/-- Witness for C3: a one-user-message history never yields the
missing-input error; the empty history always does, with zero events. -/
theorem enhancerMissingInputWitness :
    ((Agents.PromptEnhancerAgent.execute llmOkW [msgUserW] ctxOpenAIW).2
        ≠ .error (.noUserMessage "No user message found to enhance")
      ∧ (LangChainAgents.PromptEnhancerAgent.execute invokeOkW [msgUserW] ctxOpenAIW).2
        ≠ .error (.noUserMessage "No user message found to enhance"))
  ∧ (Agents.PromptEnhancerAgent.execute llmOkW [] ctxOpenAIW
        = ([], .error (.noUserMessage "No user message found to enhance"))
      ∧ LangChainAgents.PromptEnhancerAgent.execute invokeOkW [] ctxOpenAIW
        = ([], .error (.noUserMessage "No user message found to enhance"))) := by
  constructor
  · exact (enhancerMissingInput llmOkW invokeOkW [msgUserW] ctxOpenAIW).1
      ⟨msgUserW, by decide, by decide⟩ "No user message found to enhance"
  · exact (enhancerMissingInput llmOkW invokeOkW [] ctxOpenAIW).2 (by simp)

/-- C2 counterexample: the prompt enhancer invoked on a history with no
user message writes zero progress events, not two — it throws the
missing-input error before the first event. -/
theorem enhancerZeroEventsCounterexample :
    Agents.PromptEnhancerAgent.execute llmOkW [] ctxOpenAIW
        = ([], .error (.noUserMessage "No user message found to enhance"))
  ∧ (Agents.PromptEnhancerAgent.execute llmOkW [] ctxOpenAIW).1.length ≠ 2 := by
  constructor
  · decide
  · decide

/-- C2 amended: except for the prompt enhancers' missing-input failure
(zero events), every execution of the four agents writes exactly two
progress events with the stage label and order `counter + 1`; the final
event's written status is `complete` both on success and on failure (the
requested `error` status is coerced), and on success the returned
`progressCounter` is `counter + 1`. -/
theorem stageTwoProgressEvents (llm : LlmCall) (invoke invokeG : LcInvoke)
    (mkFC : FileMap → String) (selectCtx : Except String String)
    (messages : List Message) (ctx : AgentContext) :
    ((∀ m ∈ messages, m.role ≠ Role.user) →
        (Agents.PromptEnhancerAgent.execute llm messages ctx).1 = []
      ∧ (LangChainAgents.PromptEnhancerAgent.execute invoke messages ctx).1 = [])
  ∧ ((∃ m ∈ messages, m.role = Role.user) →
        stageEventShape "enhance" "Enhancing prompt..." ctx.progressCounter
          (Agents.PromptEnhancerAgent.execute llm messages ctx)
      ∧ stageEventShape "enhance" "Enhancing prompt..." ctx.progressCounter
          (LangChainAgents.PromptEnhancerAgent.execute invoke messages ctx))
  ∧ stageEventShape "code-gen" "Generating code..." ctx.progressCounter
      (Agents.CodeGeneratorAgent.execute llm mkFC selectCtx messages ctx)
  ∧ stageEventShape "code-gen" "Generating code..." ctx.progressCounter
      (LangChainAgents.CodeGeneratorAgent.execute invokeG mkFC messages ctx) := by
  refine ⟨?_, ?_, ?_, ?_⟩
  · intro hall
    have hnone := (find?_user_none_iff messages).mpr hall
    rw [stdEnh_noUser llm messages ctx hnone, lcEnh_noUser invoke messages ctx hnone]
    exact ⟨rfl, rfl⟩
  · intro hex
    obtain ⟨m, hm⟩ := find?_user_some_of_exists messages hex
    constructor
    · obtain ⟨p2, hev, hl, ho, hs⟩ := stdEnh_events_user llm messages ctx m hm
      exact ⟨p2, hev, hl, ho, hs, fun r hr => stdEnh_ok llm messages ctx r hr⟩
    · obtain ⟨p2, hev, hl, ho, hs⟩ := lcEnh_events_user invoke messages ctx m hm
      exact ⟨p2, hev, hl, ho, hs, fun r hr => (lcEnh_ok invoke messages ctx r hr).1⟩
  · obtain ⟨p2, hev, hl, ho, hs⟩ := stdGen_events llm mkFC selectCtx messages ctx
    exact ⟨p2, hev, hl, ho, hs, fun r hr => stdGen_ok llm mkFC selectCtx messages ctx r hr⟩
  · obtain ⟨p2, hev, hl, ho, hs⟩ := lcGen_events invokeG mkFC messages ctx
    exact ⟨p2, hev, hl, ho, hs, fun r hr => (lcGen_ok invokeG mkFC messages ctx r hr).1⟩

/-- Witness for C2 (amended): the contract instantiated on a concrete
one-user-message history and concrete oracles. -/
theorem stageTwoProgressEventsWitness :
    stageEventShape "enhance" "Enhancing prompt..." 0
      (LangChainAgents.PromptEnhancerAgent.execute invokeOkW [msgUserW] ctxOpenAIW)
  ∧ stageEventShape "code-gen" "Generating code..." 0
      (LangChainAgents.CodeGeneratorAgent.execute invokeOkW (fun _ => "") [msgUserW] ctxOpenAIW)
  ∧ (Agents.PromptEnhancerAgent.execute llmOkW [] ctxOpenAIW).1 = [] := by
  refine ⟨?_, ?_, ?_⟩
  · exact ((stageTwoProgressEvents llmOkW invokeOkW invokeOkW (fun _ => "") (.ok "")
      [msgUserW] ctxOpenAIW).2.1 ⟨msgUserW, by decide, by decide⟩).2
  · exact (stageTwoProgressEvents llmOkW invokeOkW invokeOkW (fun _ => "") (.ok "")
      [msgUserW] ctxOpenAIW).2.2.2
  · exact ((stageTwoProgressEvents llmOkW invokeOkW invokeOkW (fun _ => "") (.ok "")
      [] ctxOpenAIW).1 (by simp)).1

/-- C5: when the history has a last user message (at index `i`), the
orchestrator's substitution step replaces exactly the message at `i` by
the single new user message carrying the tags plus the enhanced text,
leaving every other position unchanged; with no user message the new
message is appended instead. -/
theorem replacementInvariant (genId enhancedPrompt : String) (modelInfo : ModelInfo)
    (messages : List Message) :
    (∀ i, lastUserIndex? messages = some i →
        (replaceLastUser messages
            (mkEnhancedUserMessage genId modelInfo enhancedPrompt)).length
          = messages.length
      ∧ (replaceLastUser messages
            (mkEnhancedUserMessage genId modelInfo enhancedPrompt))[i]?
          = some (mkEnhancedUserMessage genId modelInfo enhancedPrompt)
      ∧ (mkEnhancedUserMessage genId modelInfo enhancedPrompt).role = Role.user
      ∧ (mkEnhancedUserMessage genId modelInfo enhancedPrompt).content
          = Content.str (embedTags modelInfo.model modelInfo.providerName enhancedPrompt)
      ∧ (∀ j, j ≠ i →
          (replaceLastUser messages
              (mkEnhancedUserMessage genId modelInfo enhancedPrompt))[j]?
            = messages[j]?)
      ∧ (∃ m, messages[i]? = some m ∧ m.role = Role.user)
      ∧ (∀ j m', i < j → messages[j]? = some m' → m'.role ≠ Role.user))
  ∧ ((∀ m ∈ messages, m.role ≠ Role.user) →
      replaceLastUser messages (mkEnhancedUserMessage genId modelInfo enhancedPrompt)
        = messages ++ [mkEnhancedUserMessage genId modelInfo enhancedPrompt]) := by
  constructor
  · intro i h
    have hfind : findLastUser? messages = some i := by
      have := lastUserIndex?_eq messages
      rw [h] at this
      cases hf : findLastUser? messages with
      | none => rw [hf] at this; simp at this
      | some j =>
        rw [hf] at this
        simp only [Option.map_some', Option.some.injEq] at this
        rw [← this]
    have hlt : i < messages.length := findLastUser?_lt messages i hfind
    refine ⟨?_, ?_, rfl, rfl, ?_, ?_, ?_⟩
    · unfold replaceLastUser
      rw [h]
      exact List.length_set messages i _
    · unfold replaceLastUser
      rw [h]
      exact List.getElem?_set_eq_of_lt _ hlt
    · intro j hj
      unfold replaceLastUser
      rw [h]
      exact List.getElem?_set_ne (fun hij => hj hij.symm)
    · exact findLastUser?_user messages i hfind
    · exact fun j m' hij hj => findLastUser?_last messages i hfind j m' hij hj
  · intro hall
    have hnone : lastUserIndex? messages = none := by
      rw [lastUserIndex?_eq, (findLastUser?_none_iff messages).mpr hall]
      rfl
    unfold replaceLastUser
    rw [hnone]

/-- Witness for C5 on `[system, user, assistant]` (replacement at index 1)
and `[system]` (append). -/
theorem replacementInvariantWitness :
    (replaceLastUser
        [{ role := Role.system, content := Content.str "s", id := "a" }, msgUserW,
         { role := Role.assistant, content := Content.str "r", id := "b" }]
        (mkEnhancedUserMessage "id0" { model := "gpt-4", providerName := "openai" } "enh"))[1]?
      = some (mkEnhancedUserMessage "id0" { model := "gpt-4", providerName := "openai" } "enh")
  ∧ (replaceLastUser
        [{ role := Role.system, content := Content.str "s", id := "a" }, msgUserW,
         { role := Role.assistant, content := Content.str "r", id := "b" }]
        (mkEnhancedUserMessage "id0" { model := "gpt-4", providerName := "openai" } "enh"))[0]?
      = some { role := Role.system, content := Content.str "s", id := "a" }
  ∧ replaceLastUser [{ role := Role.system, content := Content.str "s", id := "a" }]
        (mkEnhancedUserMessage "id0" { model := "gpt-4", providerName := "openai" } "enh")
      = [{ role := Role.system, content := Content.str "s", id := "a" },
         mkEnhancedUserMessage "id0" { model := "gpt-4", providerName := "openai" } "enh"] := by
  refine ⟨?_, ?_, ?_⟩
  · exact ((replacementInvariant "id0" "enh" { model := "gpt-4", providerName := "openai" }
      [{ role := Role.system, content := Content.str "s", id := "a" }, msgUserW,
       { role := Role.assistant, content := Content.str "r", id := "b" }]).1 1
      (by decide)).2.1
  · have := ((replacementInvariant "id0" "enh" { model := "gpt-4", providerName := "openai" }
      [{ role := Role.system, content := Content.str "s", id := "a" }, msgUserW,
       { role := Role.assistant, content := Content.str "r", id := "b" }]).1 1
      (by decide)).2.2.2.2.1 0 (by decide)
    rw [this]
    decide
  · exact (replacementInvariant "id0" "enh" { model := "gpt-4", providerName := "openai" }
      [{ role := Role.system, content := Content.str "s", id := "a" }]).2 (by decide)

/-- C4 counterexample: with model name `]` the embedded tag text
round-trips to the empty model name, not `]` — the lazy capture stops at
the first `]`. -/
theorem tagRoundTripCounterexample :
    extractModelInfo
        (mkEnhancedUserMessage "id0" { model := "]", providerName := "OpenAI" } "hi")
      ≠ { model := "]", providerName := "OpenAI" }
  ∧ extractModelInfo
        (mkEnhancedUserMessage "id0" { model := "]", providerName := "OpenAI" } "hi")
      = { model := "", providerName := "OpenAI" } := by
  constructor
  · decide
  · decide

/-- C10: the LangChain agents' estimated usage is `ceil(p/4)` prompt
tokens, `ceil(c/4)` completion tokens and `ceil((p+c)/4)` total tokens for
the actual prompt and output character lengths; consequently
`prompt + completion - 1 ≤ total ≤ prompt + completion`, with the lower
bound strict for example at lengths `1` and `1`. -/
theorem estimatedUsageFormula (invoke invokeG : LcInvoke) (mkFC : FileMap → String)
    (messages : List Message) (ctx : AgentContext) :
    (∀ p c : Nat, ceilDiv4 p + ceilDiv4 c ≤ ceilDiv4 (p + c) + 1
       ∧ ceilDiv4 (p + c) ≤ ceilDiv4 p + ceilDiv4 c)
  ∧ (∀ r, (LangChainAgents.PromptEnhancerAgent.execute invoke messages ctx).2 = .ok r →
       ∃ p, r.usage = some
         { completionTokens := ceilDiv4 r.output.length
           promptTokens := ceilDiv4 p
           totalTokens := ceilDiv4 (p + r.output.length) })
  ∧ (∀ r, (LangChainAgents.CodeGeneratorAgent.execute invokeG mkFC messages ctx).2 = .ok r →
       ∃ p, r.usage = some
         { completionTokens := ceilDiv4 r.output.length
           promptTokens := ceilDiv4 p
           totalTokens := ceilDiv4 (p + r.output.length) })
  ∧ ceilDiv4 (1 + 1) < ceilDiv4 1 + ceilDiv4 1 := by
  refine ⟨?_, ?_, ?_, ?_⟩
  · intro p c
    unfold ceilDiv4
    omega
  · exact fun r hr => (lcEnh_ok invoke messages ctx r hr).2
  · exact fun r hr => (lcGen_ok invokeG mkFC messages ctx r hr).2
  · decide

/-- Witness for C10: the estimated-usage shape holds on a concrete
successful LangChain enhancer run. -/
theorem estimatedUsageFormulaWitness :
    ∃ p, erW.usage = some
      { completionTokens := ceilDiv4 erW.output.length
        promptTokens := ceilDiv4 p
        totalTokens := ceilDiv4 (p + erW.output.length) } :=
  (estimatedUsageFormula invokeOkW invokeOkW (fun _ => "") [msgUserW] ctxOpenAIW).2.1
    erW (by decide)

/-- C1: whenever both stages succeed, the orchestrator returns the
generator's output text together with the field-wise sum of the two
stages' usages (an absent stage usage counts as all-zero); in particular
`totalTokens` is the sum of the stages' `totalTokens`.  The emitted events
are the enhancer's, the prompt-comparison event, then the generator's. -/
theorem orchestratorUsageSum (invokeE invokeG : LcInvoke) (mkFC : FileMap → String)
    (genId : String) (messages : List Message) (ctx : AgentContext)
    (ev1 ev2 : List StreamEvent) (er gr : AgentResult)
    (hE : LangChainAgents.PromptEnhancerAgent.execute invokeE messages
            { ctx with progressCounter := 0 } = (ev1, .ok er))
    (hG : LangChainAgents.CodeGeneratorAgent.execute invokeG mkFC
            (replaceLastUser messages
              (mkEnhancedUserMessage genId (lcLastModelInfo messages) er.output))
            { ctx with progressCounter := er.progressCounter } = (ev2, .ok gr)) :
    orchestrateLangChainAgents invokeE invokeG mkFC genId messages ctx
      = (ev1 ++ [StreamEvent.promptComparison (origPromptDisplay messages) er.output] ++ ev2,
         .ok { text := gr.output
               usage :=
                 { completionTokens := (er.usage.map Usage.completionTokens).getD 0
                     + (gr.usage.map Usage.completionTokens).getD 0
                   promptTokens := (er.usage.map Usage.promptTokens).getD 0
                     + (gr.usage.map Usage.promptTokens).getD 0
                   totalTokens := (er.usage.map Usage.totalTokens).getD 0
                     + (gr.usage.map Usage.totalTokens).getD 0 } }) := by
  unfold orchestrateLangChainAgents
  dsimp only
  rw [hE]
  dsimp only
  rw [hG]

/-- C6 amended: in every successful orchestrated run the progress orders
are exactly `[1, 1, 2, 2]` — the two events of a stage share that stage's
order (enhance: initial counter 0 plus one; code-gen: plus two), so the
sequence is nondecreasing with contiguous distinct values, but not
strictly increasing. -/
theorem progressOrdersShape (invokeE invokeG : LcInvoke) (mkFC : FileMap → String)
    (genId : String) (messages : List Message) (ctx : AgentContext)
    (ev : List StreamEvent) (r : OrchestratorResult)
    (h : orchestrateLangChainAgents invokeE invokeG mkFC genId messages ctx = (ev, .ok r)) :
    progressOrders ev = [1, 1, 2, 2]
  ∧ List.Chain' (fun a b => a ≤ b) (progressOrders ev) := by
  unfold orchestrateLangChainAgents at h
  dsimp only at h
  cases hE : LangChainAgents.PromptEnhancerAgent.execute invokeE messages
      { ctx with progressCounter := 0 } with
  | mk ev1 res1 =>
    rw [hE] at h
    cases res1 with
    | error e => simp at h
    | ok er =>
      dsimp only at h
      cases hG : LangChainAgents.CodeGeneratorAgent.execute invokeG mkFC
          (replaceLastUser messages
            (mkEnhancedUserMessage genId (lcLastModelInfo messages) er.output))
          { ctx with progressCounter := er.progressCounter } with
      | mk ev2 res2 =>
        rw [hG] at h
        cases res2 with
        | error e => simp at h
        | ok gr =>
          dsimp only at h
          injection h with hev hres
          subst hev
          cases hfind : messages.reverse.find? (fun m => m.role == Role.user) with
          | none =>
            rw [lcEnh_noUser invokeE messages { ctx with progressCounter := 0 } hfind] at hE
            injection hE with h1 h2
            cases h2
          | some m =>
            obtain ⟨p2, hev1, hl, ho, hs⟩ := lcEnh_events_user invokeE messages
              { ctx with progressCounter := 0 } m hfind
            have her : er.progressCounter = 0 + 1 :=
              (lcEnh_ok invokeE messages { ctx with progressCounter := 0 } er
                (by rw [hE])).1
            obtain ⟨q2, hev2, hl2, ho2, hs2⟩ := lcGen_events invokeG mkFC
              (replaceLastUser messages
                (mkEnhancedUserMessage genId (lcLastModelInfo messages) er.output))
              { ctx with progressCounter := er.progressCounter }
            rw [hE] at hev1
            rw [hG] at hev2
            dsimp only at hev1 hev2 ho ho2
            have hlist : progressOrders (ev1 ++
                [StreamEvent.promptComparison (origPromptDisplay messages) er.output] ++ ev2)
                = [1, 1, 2, 2] := by
              rw [hev1, hev2]
              simp [progressOrders, ho, ho2, her]
            exact ⟨hlist, by rw [hlist]; simp [List.chain'_cons]⟩

/-- Witness for C1: the concrete two-stage run returns the generator text
with the field-wise usage sums. -/
theorem orchestratorUsageSumWitness :
    orchestrateLangChainAgents invokeOkW invokeOkW (fun _ => "") "id0" [msgUserW] ctxOpenAIW
      = (ev1W ++ [StreamEvent.promptComparison (origPromptDisplay [msgUserW]) "done"] ++ ev2W,
         .ok { text := "done"
               usage :=
                 { completionTokens := (erW.usage.map Usage.completionTokens).getD 0
                     + (grW.usage.map Usage.completionTokens).getD 0
                   promptTokens := (erW.usage.map Usage.promptTokens).getD 0
                     + (grW.usage.map Usage.promptTokens).getD 0
                   totalTokens := (erW.usage.map Usage.totalTokens).getD 0
                     + (grW.usage.map Usage.totalTokens).getD 0 } }) :=
  orchestratorUsageSum invokeOkW invokeOkW (fun _ => "") "id0" [msgUserW] ctxOpenAIW
    ev1W ev2W erW grW (by decide) (by decide)

/-- C6 counterexample: a concrete successful run emits progress orders
`[1, 1, 2, 2]` — each stage's two events share the same order, so the
sequence is not strictly increasing. -/
theorem progressOrdersCounterexample :
    (orchestrateLangChainAgents invokeOkW invokeOkW (fun _ => "") "id0"
        [msgUserW] ctxOpenAIW).2.isOk = true
  ∧ progressOrders (orchestrateLangChainAgents invokeOkW invokeOkW (fun _ => "") "id0"
        [msgUserW] ctxOpenAIW).1 = [1, 1, 2, 2]
  ∧ ¬ List.Chain' (fun a b => a < b)
        (progressOrders (orchestrateLangChainAgents invokeOkW invokeOkW (fun _ => "") "id0"
          [msgUserW] ctxOpenAIW).1) := by
  have h : progressOrders (orchestrateLangChainAgents invokeOkW invokeOkW (fun _ => "") "id0"
      [msgUserW] ctxOpenAIW).1 = [1, 1, 2, 2] := by decide
  refine ⟨by decide, h, ?_⟩
  rw [h]
  simp [List.chain'_cons]

/-- Witness for C6 (amended): the order shape `[1, 1, 2, 2]` on the
concrete successful run. -/
theorem progressOrdersShapeWitness :
    progressOrders (ev1W
        ++ [StreamEvent.promptComparison (origPromptDisplay [msgUserW]) "done"] ++ ev2W)
      = [1, 1, 2, 2]
  ∧ List.Chain' (fun a b => a ≤ b)
      (progressOrders (ev1W
        ++ [StreamEvent.promptComparison (origPromptDisplay [msgUserW]) "done"] ++ ev2W)) :=
  progressOrdersShape invokeOkW invokeOkW (fun _ => "") "id0" [msgUserW] ctxOpenAIW
    (ev1W ++ [StreamEvent.promptComparison (origPromptDisplay [msgUserW]) "done"] ++ ev2W)
    resW (by decide)

/-- C4 (amended) witness: a well-behaved model/provider pair round-trips
exactly. -/
theorem tagRoundTripWitness :
    extractModelInfo
        (mkEnhancedUserMessage "id0" { model := "claude-3", providerName := "Anthropic" }
          "hello")
      = { model := "claude-3", providerName := "Anthropic" } :=
  tagRoundTrip "id0" "claude-3" "Anthropic" "hello" (by decide) (by decide) (by decide)
